import Mathlib

/-!
Verification of the `pytest-allure3-uploader` upload client
(`pytest_allure3_uploader/client.py`) against its specification.

The development shallowly embeds the client:
* a JSON value model with Python's `json.dumps` ensure-ascii serialization
  and a parser modelling `json.loads` (numbers restricted to integers;
  float syntax is rejected by the model);
* a filesystem tree model with the recursive walk of
  `zip_allure_results` (the ZIP container format is abstracted to its
  lossless entry list: entry name plus decompressed bytes);
* the `upload` pipeline: archiving, multipart request assembly, the
  optional config part, and response handling.
-/

namespace AllureUploader

/-! ## JSON values

Mirrors the values `json.dumps` accepts from a `Dict[str, Any]` metadata
map: null, booleans, integers, strings, arrays, objects.  Python floats
are outside the model. -/

mutual

inductive Json where
  | null : Json
  | bool (b : Bool) : Json
  | num (n : Int) : Json
  | str (s : String) : Json
  | arr (xs : JsonArr) : Json
  | obj (kvs : JsonObj) : Json
  deriving DecidableEq

inductive JsonArr where
  | nil : JsonArr
  | cons (hd : Json) (tl : JsonArr) : JsonArr
  deriving DecidableEq

inductive JsonObj where
  | nil : JsonObj
  | cons (k : String) (v : Json) (tl : JsonObj) : JsonObj
  deriving DecidableEq

end

/-- Decimal digit character, `'0' + n` for `n < 10`. -/
def digitCh : Nat → Char
  | 0 => '0' | 1 => '1' | 2 => '2' | 3 => '3' | 4 => '4'
  | 5 => '5' | 6 => '6' | 7 => '7' | 8 => '8' | _ => '9'

/-- Lowercase hexadecimal digit character for `n < 16`, as used by
Python's `\uXXXX` escapes (`'%04x'`). -/
def hexCh : Nat → Char
  | 0 => '0' | 1 => '1' | 2 => '2' | 3 => '3' | 4 => '4'
  | 5 => '5' | 6 => '6' | 7 => '7' | 8 => '8' | 9 => '9'
  | 10 => 'a' | 11 => 'b' | 12 => 'c' | 13 => 'd' | 14 => 'e' | _ => 'f'

/-- Four lowercase hex digits of `n < 0x10000`, most significant first. -/
def hex4 (n : Nat) : List Char :=
  [hexCh (n / 4096 % 16), hexCh (n / 256 % 16), hexCh (n / 16 % 16), hexCh (n % 16)]

/-- Python `json.dumps` escaping of one character with `ensure_ascii=True`
(the default): short escapes for the usual specials, printable ASCII kept
verbatim, everything else as `\uXXXX` (a surrogate pair beyond the BMP). -/
def escapeChar (c : Char) : List Char :=
  if c = '"' then ['\\', '"']
  else if c = '\\' then ['\\', '\\']
  else if c = '\x08' then ['\\', 'b']
  else if c = '\x0c' then ['\\', 'f']
  else if c = '\n' then ['\\', 'n']
  else if c = '\r' then ['\\', 'r']
  else if c = '\t' then ['\\', 't']
  else if 0x20 ≤ c.toNat ∧ c.toNat ≤ 0x7e then [c]
  else if c.toNat < 0x10000 then '\\' :: 'u' :: hex4 c.toNat
  else
    ('\\' :: 'u' :: hex4 (0xd800 + (c.toNat - 0x10000) / 1024)) ++
      ('\\' :: 'u' :: hex4 (0xdc00 + (c.toNat - 0x10000) % 1024))

/-- Escape a whole character list. -/
def escChars : List Char → List Char
  | [] => []
  | c :: cs => escapeChar c ++ escChars cs

/-- Decimal digits of a natural number, most significant first. -/
def natChars (n : Nat) : List Char :=
  if _h : n < 10 then [digitCh n]
  else natChars (n / 10) ++ [digitCh (n % 10)]
decreasing_by exact Nat.div_lt_self (by omega) (by omega)

/-- Decimal rendering of an integer, as Python prints `int`. -/
def intChars : Int → List Char
  | .ofNat n => natChars n
  | .negSucc m => '-' :: natChars (m + 1)

mutual

/-- Characters of `json.dumps(v)` with the default separators
`(', ', ': ')`. -/
def dumpJson : Json → List Char
  | .null => "null".data
  | .bool true => "true".data
  | .bool false => "false".data
  | .num n => intChars n
  | .str s => '"' :: (escChars s.data ++ ['"'])
  | .arr .nil => ['[', ']']
  | .arr (.cons h t) => '[' :: (dumpJson h ++ dumpArrTail t ++ [']'])
  | .obj .nil => ['\x7b', '\x7d']
  | .obj (.cons k v t) =>
      '\x7b' :: '"' :: (escChars k.data ++ '"' :: ':' :: ' ' ::
        (dumpJson v ++ dumpObjTail t ++ ['\x7d']))

/-- Remaining array items, each preceded by `", "`. -/
def dumpArrTail : JsonArr → List Char
  | .nil => []
  | .cons h t => ',' :: ' ' :: (dumpJson h ++ dumpArrTail t)

/-- Remaining object items, each preceded by `", "`. -/
def dumpObjTail : JsonObj → List Char
  | .nil => []
  | .cons k v t =>
      ',' :: ' ' :: '"' :: (escChars k.data ++ '"' :: ':' :: ' ' ::
        (dumpJson v ++ dumpObjTail t))

end

/-- String produced by `json.dumps`. -/
def dumps (v : Json) : String := String.mk (dumpJson v)

/-! ## JSON parser, modelling `json.loads`

Restricted to the integer fragment: float syntax (`.`/`e` after digits,
which `dumps` never emits for this client) makes the surrounding parse
fail instead of producing a float.  Lone surrogate escapes, which Python
tolerates but `dumps` never emits, are rejected because Lean characters
cannot hold them. -/

/-- JSON whitespace recognised by the decoder. -/
def isWsCh (c : Char) : Bool :=
  c = ' ' || c = '\t' || c = '\n' || c = '\r'

/-- ASCII decimal digit test. -/
def isDigitCh (c : Char) : Bool :=
  48 ≤ c.toNat && c.toNat ≤ 57

/-- Drop leading JSON whitespace. -/
def skipWs : List Char → List Char
  | [] => []
  | c :: cs => if isWsCh c then skipWs cs else c :: cs

/-- Value of one hexadecimal digit character. -/
def hexVal (c : Char) : Option Nat :=
  if 48 ≤ c.toNat ∧ c.toNat ≤ 57 then some (c.toNat - 48)
  else if 97 ≤ c.toNat ∧ c.toNat ≤ 102 then some (c.toNat - 87)
  else if 65 ≤ c.toNat ∧ c.toNat ≤ 70 then some (c.toNat - 55)
  else none

/-- Short escape table of the JSON string grammar. -/
def escShort (e : Char) : Option Char :=
  if e = '"' then some '"'
  else if e = '\\' then some '\\'
  else if e = '/' then some '/'
  else if e = 'b' then some '\x08'
  else if e = 'f' then some '\x0c'
  else if e = 'n' then some '\n'
  else if e = 'r' then some '\r'
  else if e = 't' then some '\t'
  else none

/-- Parse four hexadecimal digits into their value. -/
def parseU : List Char → Option (Nat × List Char)
  | a :: b :: c :: d :: rest =>
    match hexVal a, hexVal b, hexVal c, hexVal d with
    | some x, some y, some z, some w => some (x * 4096 + y * 256 + z * 16 + w, rest)
    | _, _, _, _ => none
  | _ => none

/-- After a high surrogate `\uXXXX`, parse the mandatory low-surrogate
escape and combine the pair into one character. -/
def parseLowSur (n : Nat) : List Char → Option (Char × List Char)
  | b1 :: u1 :: k =>
    if b1 = '\\' ∧ u1 = 'u' then
      match parseU k with
      | some (m, rest4) =>
        if 0xdc00 ≤ m ∧ m ≤ 0xdfff then
          some (Char.ofNat (0x10000 + (n - 0xd800) * 1024 + (m - 0xdc00)), rest4)
        else none
      | none => none
    else none
  | _ => none

/-- Decode one escape sequence after the backslash: `e` is the escape
letter, the rest of the input follows.  Surrogate pairs in `\uXXXX`
escapes are recombined as Python's decoder does; a lone surrogate
(never produced by `dumps`) is rejected. -/
def parseEsc (e : Char) (rest2 : List Char) : Option (Char × List Char) :=
  if e = 'u' then
    match parseU rest2 with
    | some (n, rest3) =>
      if 0xd800 ≤ n ∧ n ≤ 0xdbff then parseLowSur n rest3
      else if 0xdc00 ≤ n ∧ n ≤ 0xdfff then none
      else some (Char.ofNat n, rest3)
    | none => none
  else
    match escShort e with
    | some c => some (c, rest2)
    | none => none

theorem parseU_length {k : List Char} {n : Nat} {r : List Char}
    (h : parseU k = some (n, r)) : r.length + 4 = k.length := by
  match k with
  | a :: b :: c :: d :: rest =>
    simp only [parseU] at h
    match ha : hexVal a, hb : hexVal b, hc : hexVal c, hd : hexVal d with
    | some x, some y, some z, some w =>
      rw [ha, hb, hc, hd] at h
      simp at h
      simp [← h.2]
    | none, _, _, _ => rw [ha] at h; simp at h
    | some _, none, _, _ => rw [ha, hb] at h; simp at h
    | some _, some _, none, _ => rw [ha, hb, hc] at h; simp at h
    | some _, some _, some _, none => rw [ha, hb, hc, hd] at h; simp at h
  | [] => simp [parseU] at h
  | [a] => simp [parseU] at h
  | [a, b] => simp [parseU] at h
  | [a, b, c] => simp [parseU] at h

theorem parseLowSur_length {n : Nat} {k : List Char} {c : Char} {r : List Char}
    (h : parseLowSur n k = some (c, r)) : r.length ≤ k.length := by
  match k with
  | b1 :: u1 :: k2 =>
    simp only [parseLowSur] at h
    split at h
    · split at h
      next m rest4 heq =>
        have hl := parseU_length heq
        split at h
        · rw [Option.some_inj, Prod.mk.injEq] at h
          obtain ⟨-, h2⟩ := h
          subst h2
          simp only [List.length_cons]
          omega
        · exact absurd h (by simp)
      next heq => exact absurd h (by simp)
    · exact absurd h (by simp)
  | [] => simp [parseLowSur] at h
  | [b1] => simp [parseLowSur] at h

theorem parseEsc_length {e : Char} {k : List Char} {c : Char} {r : List Char}
    (h : parseEsc e k = some (c, r)) : r.length ≤ k.length := by
  simp only [parseEsc] at h
  split at h
  · split at h
    next n rest3 heq =>
      have hl := parseU_length heq
      split at h
      · have h2 := parseLowSur_length h
        omega
      · split at h
        · exact absurd h (by simp)
        · rw [Option.some_inj, Prod.mk.injEq] at h
          obtain ⟨-, h2⟩ := h
          subst h2
          omega
    next heq => exact absurd h (by simp)
  · split at h
    next c2 heq =>
      rw [Option.some_inj, Prod.mk.injEq] at h
      obtain ⟨-, h2⟩ := h
      subst h2
      exact le_refl _
    next heq => exact absurd h (by simp)

/-- Parse a JSON string body after the opening quote: the decoded
characters and the input following the closing quote.  Raw control
characters are rejected (Python `strict=True`).  The fuel bounds the
number of decoded characters; every escape consumes at least one input
character, so callers pass the input length plus one
(`parseEsc_length` records the consumption). -/
def parseStrBody : Nat → List Char → Option (List Char × List Char)
  | 0, _ => none
  | _ + 1, [] => none
  | fuel + 1, c :: rest =>
    if c = '"' then some ([], rest)
    else if c = '\\' then
      match rest with
      | [] => none
      | e :: rest2 =>
        match parseEsc e rest2 with
        | some (c2, rest3) =>
          match parseStrBody fuel rest3 with
          | some (s, r) => some (c2 :: s, r)
          | none => none
        | none => none
    else if c.toNat < 0x20 then none
    else
      match parseStrBody fuel rest with
      | some (s, r) => some (c :: s, r)
      | none => none

/-- Accumulate decimal digits, stopping at the first non-digit. -/
def digitsVal (acc : Nat) : List Char → Nat × List Char
  | [] => (acc, [])
  | c :: cs => if isDigitCh c then digitsVal (acc * 10 + (c.toNat - 48)) cs else (acc, c :: cs)

/-- Parse an integer literal: optional minus sign then decimal digits. -/
def parseIntChars : List Char → Option (Int × List Char)
  | [] => none
  | c :: cs =>
    if c = '-' then
      match cs with
      | [] => none
      | d :: cs2 =>
        if isDigitCh d then
          let p := digitsVal (d.toNat - 48) cs2
          some (-(p.1 : Int), p.2)
        else none
    else if isDigitCh c then
      let p := digitsVal (c.toNat - 48) cs
      some ((p.1 : Int), p.2)
    else none

mutual

/-- Parse one JSON value (fuel-indexed recursion). -/
def parseVal : Nat → List Char → Option (Json × List Char)
  | 0, _ => none
  | fuel + 1, cs =>
    match skipWs cs with
    | [] => none
    | c :: rest =>
      if c = '"' then
        match parseStrBody (rest.length + 1) rest with
        | some (s, r) => some (.str (String.mk s), r)
        | none => none
      else if c = '[' then
        match skipWs rest with
        | [] => none
        | c2 :: r2 =>
          if c2 = ']' then some (.arr .nil, r2)
          else
            match parseVal fuel (c2 :: r2) with
            | some (v, r3) =>
              match parseArrTail fuel r3 with
              | some (t, r4) => some (.arr (.cons v t), r4)
              | none => none
            | none => none
      else if c = '\x7b' then
        match skipWs rest with
        | [] => none
        | c2 :: r2 =>
          if c2 = '\x7d' then some (.obj .nil, r2)
          else if c2 = '"' then
            match parseStrBody (r2.length + 1) r2 with
            | some (k, r3) =>
              match skipWs r3 with
              | [] => none
              | c4 :: r4 =>
                if c4 = ':' then
                  match parseVal fuel r4 with
                  | some (v, r5) =>
                    match parseObjTail fuel r5 with
                    | some (t, r6) => some (.obj (.cons (String.mk k) v t), r6)
                    | none => none
                  | none => none
                else none
            | none => none
          else none
      else if c = 'n' then
        match rest with
        | 'u' :: 'l' :: 'l' :: r2 => some (.null, r2)
        | _ => none
      else if c = 't' then
        match rest with
        | 'r' :: 'u' :: 'e' :: r2 => some (.bool true, r2)
        | _ => none
      else if c = 'f' then
        match rest with
        | 'a' :: 'l' :: 's' :: 'e' :: r2 => some (.bool false, r2)
        | _ => none
      else
        match parseIntChars (c :: rest) with
        | some (n, r2) => some (.num n, r2)
        | none => none

/-- Parse the items of an array after the first one: `", item"`* then `]`. -/
def parseArrTail : Nat → List Char → Option (JsonArr × List Char)
  | 0, _ => none
  | fuel + 1, cs =>
    match skipWs cs with
    | [] => none
    | c :: rest =>
      if c = ']' then some (.nil, rest)
      else if c = ',' then
        match parseVal fuel rest with
        | some (v, r2) =>
          match parseArrTail fuel r2 with
          | some (t, r3) => some (.cons v t, r3)
          | none => none
        | none => none
      else none

/-- Parse the members of an object after the first one. -/
def parseObjTail : Nat → List Char → Option (JsonObj × List Char)
  | 0, _ => none
  | fuel + 1, cs =>
    match skipWs cs with
    | [] => none
    | c :: rest =>
      if c = '\x7d' then some (.nil, rest)
      else if c = ',' then
        match skipWs rest with
        | [] => none
        | c2 :: r2 =>
          if c2 = '"' then
            match parseStrBody (r2.length + 1) r2 with
            | some (k, r3) =>
              match skipWs r3 with
              | [] => none
              | c4 :: r4 =>
                if c4 = ':' then
                  match parseVal fuel r4 with
                  | some (v, r5) =>
                    match parseObjTail fuel r5 with
                    | some (t, r6) => some (.cons (String.mk k) v t, r6)
                    | none => none
                  | none => none
                else none
            | none => none
          else none
      else none

end

/-- Decode a JSON document, requiring the whole input to be consumed
apart from trailing whitespace (`json.loads` raises on extra data). -/
def loads (s : String) : Option Json :=
  match parseVal (s.length + 1) s.data with
  | some (v, rest) => if skipWs rest = [] then some v else none
  | none => none

/-- Input does not start with a decimal digit (so a digit run stops). -/
def headNotDigit : List Char → Bool
  | [] => true
  | c :: _ => !isDigitCh c

mutual

/-- Fuel sufficient for `parseVal` on the printed form of a value. -/
def sizeJ : Json → Nat
  | .arr (.cons h t) => 1 + Nat.max (sizeJ h) (sizeA t)
  | .obj (.cons _ v t) => 1 + Nat.max (sizeJ v) (sizeO t)
  | _ => 1

/-- Fuel sufficient for `parseArrTail` on a printed array tail. -/
def sizeA : JsonArr → Nat
  | .nil => 1
  | .cons h t => 1 + Nat.max (sizeJ h) (sizeA t)

/-- Fuel sufficient for `parseObjTail` on a printed object tail. -/
def sizeO : JsonObj → Nat
  | .nil => 1
  | .cons _ v t => 1 + Nat.max (sizeJ v) (sizeO t)

end

/-- Last-occurrence lookup in a decoded object: `json.loads` builds a
Python dict from the pairs, so a duplicated key keeps its last value. -/
def objGet : JsonObj → String → Option Json
  | .nil, _ => none
  | .cons k v tl, key =>
    match objGet tl key with
    | some r => some r
    | none => if k = key then some v else none

/-- Python `dict.get(key, default)`. -/
def objGetD (kvs : JsonObj) (key : String) (dflt : Json) : Json :=
  match objGet kvs key with
  | some v => v
  | none => dflt

/-- A decoded JSON `null` is Python `None`, indistinguishable from an
absent key for `dict.get(key)`. -/
def pyOptional : Option Json → Option Json
  | some .null => none
  | x => x

/-- Models Python `int(x)` on a JSON-decoded value: integers pass
through, booleans become 1/0, anything else raises `TypeError`
(`int` of a numeric string is not modelled; no claim exercises it). -/
def pyInt : Json → Option Int
  | .num n => some n
  | .bool b => some (if b then 1 else 0)
  | _ => none

/-- Whitespace stripped by Python `str.strip()` (ASCII fragment). -/
def isPyWs (c : Char) : Bool :=
  c = ' ' || c = '\t' || c = '\n' || c = '\r' || c = '\x0b' || c = '\x0c'

/-- Python `str.strip()`: drop leading and trailing whitespace. -/
def pyStrip (s : String) : String :=
  String.mk (((s.data.dropWhile isPyWs).reverse.dropWhile isPyWs).reverse)

/-- Prefix test on character lists. -/
def prefixChars : List Char → List Char → Bool
  | [], _ => true
  | _ :: _, [] => false
  | a :: as, b :: bs => a = b && prefixChars as bs

/-- Substring containment, modelling Python's `needle in haystack`. -/
def substrChars (needle : List Char) : List Char → Bool
  | [] => prefixChars needle []
  | c :: cs => prefixChars needle (c :: cs) || substrChars needle cs

/-! ## Filesystem model

A directory tree of regular files with byte contents.  Directory
listings keep their entries in order; `wfL` states the real-filesystem
invariants (unique sibling names, names nonempty and free of `/`). -/

mutual

/-- A filesystem node: a regular file with its bytes, or a directory. -/
inductive Entry where
  | file (content : List Nat) : Entry
  | dir (children : Listing) : Entry
  deriving DecidableEq

/-- Ordered children of a directory, each with its name. -/
inductive Listing where
  | nil : Listing
  | cons (name : String) (e : Entry) (tl : Listing) : Listing
  deriving DecidableEq

end

/-- Whether a listing has a child of the given name. -/
def nameIn (m : String) : Listing → Bool
  | .nil => false
  | .cons n _ tl => n = m || nameIn m tl

/-- A usable filesystem name: nonempty, no path separator. -/
def okName (n : String) : Bool := n ≠ "" && !(n.data.contains '/')

mutual

/-- Well-formed node: every directory below is well-formed. -/
def wfE : Entry → Bool
  | .file _ => true
  | .dir l => wfL l

/-- Well-formed listing: sibling names are distinct and usable. -/
def wfL : Listing → Bool
  | .nil => true
  | .cons n e tl =>
    !(nameIn n tl) && okName n && wfE e && wfL tl

end

/-- Find a child of a directory by name. -/
def lookupList : Listing → String → Option Entry
  | .nil, _ => none
  | .cons n e tl, name => if n = name then some e else lookupList tl name

/-- Resolve a relative path (list of segments) against a node, as the
OS resolves `Path` components. -/
def lookupPath : Entry → List String → Option Entry
  | e, [] => some e
  | .file _, _ :: _ => none
  | .dir l, n :: p =>
    match lookupList l n with
    | some e => lookupPath e p
    | none => none

mutual

/-- Files below one named child: relative path segments plus content.
Together with `walkListing` this is the `p.rglob("*")` walk filtered by
`is_file()`, as in `zip_allure_results`. -/
def walkEntry (name : String) : Entry → List (List String × List Nat)
  | .file c => [([name], c)]
  | .dir l => (walkListing l).map (fun pc => (name :: pc.1, pc.2))

/-- Files below every child of a directory, in listing order. -/
def walkListing : Listing → List (List String × List Nat)
  | .nil => []
  | .cons n e tl => walkEntry n e ++ walkListing tl

end

mutual

/-- Number of regular files below a node. -/
def countFilesE : Entry → Nat
  | .file _ => 1
  | .dir l => countFilesL l

/-- Number of regular files below a listing. -/
def countFilesL : Listing → Nat
  | .nil => 0
  | .cons _ e tl => countFilesE e + countFilesL tl

end

/-- Content of the regular file at a relative path below a directory,
resolving one segment at a time (independent spec of the walk). -/
def fileAtL : Listing → List String → Option (List Nat)
  | _, [] => none
  | l, [n] =>
    match lookupList l n with
    | some (.file c) => some c
    | _ => none
  | l, n :: p =>
    match lookupList l n with
    | some (.dir l2) => fileAtL l2 p
    | _ => none

/-- Content of the regular file a node holds at a relative path. -/
def entryFileAt : Entry → List String → Option (List Nat)
  | .file c, [] => some c
  | .file _, _ :: _ => none
  | .dir _, [] => none
  | .dir l, q :: qs => fileAtL l (q :: qs)


/-- Archive entries of a directory: every regular file below it, named
by its forward-slash relative path (`file_path.relative_to(p).as_posix()`),
carrying its exact bytes.  The ZIP container is abstracted to this
lossless entry list (DEFLATE decompresses byte-identically). -/
def zipEntries (l : Listing) : List (String × List Nat) :=
  (walkListing l).map (fun pc => (String.intercalate "/" pc.1, pc.2))

/-- `AllureUploaderClient.zip_allure_results`: check the path exists and
is a directory (else `FileNotFoundError`), then archive every regular
file found by the recursive walk. -/
def zip_allure_results (fs : Entry) (results_dir : List String) :
    Except Unit (List (String × List Nat)) :=
  match lookupPath fs results_dir with
  | some (.dir l) => .ok (zipEntries l)
  | _ => .error ()

/-! ## Upload client model

`AllureUploaderClient.upload` for a single call: the filesystem, the
arguments, and the one HTTP response stand in for the outside world;
the outcome records the request that was POSTed (if any) and the
returned result or raised error. -/

/-- The `config` argument's runtime type: a Python `str` (inline
config text) or a Python `Path` (file reference, as path segments). -/
inductive ConfigArg where
  | str (s : String) : ConfigArg
  | path (p : List String) : ConfigArg
  deriving DecidableEq

/-- Body of one multipart part. -/
inductive PartBody where
  | zipData (entries : List (String × List Nat)) : PartBody
  | text (s : String) : PartBody
  | bytes (bs : List Nat) : PartBody
  deriving DecidableEq

/-- One multipart form part, as `requests` builds it from the `files`
dict: field name, optional filename, body, content type. -/
structure Part where
  name : String
  filename : Option String
  body : PartBody
  contentType : String
  deriving DecidableEq

/-- The POST request `upload` sends. -/
structure Request where
  url : String
  parts : List Part
  deriving DecidableEq

/-- The server's response: status code, content-type header, body. -/
structure Response where
  status : Nat
  contentType : String
  body : String
  deriving DecidableEq

/-- Errors `upload` raises: `FileNotFoundError` from archiving or the
config file check, `HTTPError` from `raise_for_status`, the
`RuntimeError` carrying the unexpected content type, and a malformed
JSON body. -/
inductive UploadError where
  | notFound : UploadError
  | httpStatus (code : Nat) : UploadError
  | unexpectedContentType (ct : String) : UploadError
  | malformedResponse : UploadError
  deriving DecidableEq

/-- The `UploadResult` dataclass.  Python performs no runtime field
typing, so the fields taken verbatim from the decoded response are
kept as JSON values; `run_id` went through `int(...)`. -/
structure UploadResult where
  project : Json
  run_id : Int
  ui_url : Json
  latest_url : Json
  status : Json
  error : Option Json
  deriving DecidableEq

instance {ε α : Type} [DecidableEq ε] [DecidableEq α] :
    DecidableEq (Except ε α) := fun a b =>
  match a, b with
  | .ok x, .ok y =>
    if h : x = y then .isTrue (by rw [h]) else .isFalse (fun he => by cases he; exact h rfl)
  | .error x, .error y =>
    if h : x = y then .isTrue (by rw [h]) else .isFalse (fun he => by cases he; exact h rfl)
  | .ok _, .error _ => .isFalse (fun he => by cases he)
  | .error _, .ok _ => .isFalse (fun he => by cases he)

/-- What one `upload` call did: the request it POSTed (`none` when it
failed before any network activity) and its result. -/
structure UploadOutcome where
  request : Option Request
  result : Except UploadError UploadResult
  deriving DecidableEq

/-- `meta = meta or {}`: a missing metadata map becomes the empty map. -/
def metaMap : Option JsonObj → JsonObj
  | none => .nil
  | some mm => mm

/-- The archive part of the `files` dict:
`("allure-results.zip", zip_bytes, "application/zip")` under field
`results`. -/
def resultsPart (entries : List (String × List Nat)) : Part :=
  { name := "results", filename := some "allure-results.zip",
    body := .zipData entries, contentType := "application/zip" }

/-- The metadata part of the `files` dict:
`(None, json.dumps(meta), "application/json")` under field `meta`. -/
def metaPart (m : JsonObj) : Part :=
  { name := "meta", filename := none,
    body := .text (dumps (.obj m)), contentType := "application/json" }

/-- The request URL `f"{base_url}/api/v1/projects/{project}/runs"`. -/
def uploadUrl (base_url project : String) : String :=
  base_url ++ "/api/v1/projects/" ++ project ++ "/runs"

/-- `requests.Response.raise_for_status` raises exactly for 4xx and
5xx status codes. -/
def raiseForStatus (status : Nat) : Bool := 400 ≤ status && status ≤ 599

/-- Response handling of `upload` (client.py lines 101-115): check the
content-type header for `application/json`, raising the HTTP-status
error first and the content-type error second; then decode the body
and build the result with the documented per-field defaults. -/
def handleResponse (project : String) (resp : Response) :
    Except UploadError UploadResult :=
  if substrChars "application/json".data resp.contentType.data = false then
    if raiseForStatus resp.status then .error (.httpStatus resp.status)
    else .error (.unexpectedContentType resp.contentType)
  else
    match loads resp.body with
    | some (.obj data) =>
      match pyInt (objGetD data "run_id" (.num 0)) with
      | some rid =>
        .ok { project := objGetD data "project" (.str project)
              run_id := rid
              ui_url := objGetD data "ui_url" (.str "")
              latest_url := objGetD data "latest_url" (.str "")
              status := objGetD data "status" (.str "unknown")
              error := pyOptional (objGet data "error") }
      | none => .error .malformedResponse
    | _ => .error .malformedResponse

/-- `AllureUploaderClient.upload`: archive the results directory, build
the multipart parts (`results`, `meta`, optional `config`), POST once,
and handle the response.  `base_url` is the constructor's base URL
(already `rstrip("/")`-ed); `meta = None` defaults to the empty map. -/
def upload (fs : Entry) (base_url : String) (project : String)
    (results_dir : List String) (meta : Option JsonObj)
    (config : Option ConfigArg) (resp : Response) : UploadOutcome :=
  let m := metaMap meta
  let url := uploadUrl base_url project
  match zip_allure_results fs results_dir with
  | .error _ => { request := none, result := .error .notFound }
  | .ok entries =>
    let baseParts : List Part := [resultsPart entries, metaPart m]
    match config with
    | none =>
      { request := some { url := url, parts := baseParts },
        result := handleResponse project resp }
    | some (.str s) =>
      let cfgText := pyStrip s
      if cfgText = "" then
        { request := some { url := url, parts := baseParts },
          result := handleResponse project resp }
      else
        { request := some { url := url, parts := baseParts ++
            [ { name := "config", filename := some "allure.config.mjs",
                body := .text cfgText, contentType := "text/javascript" } ] },
          result := handleResponse project resp }
    | some (.path p) =>
      match lookupPath fs p with
      | some (.file bs) =>
        { request := some { url := url, parts := baseParts ++
            [ { name := "config", filename := some (p.getLastD ""),
                body := .bytes bs, contentType := "text/javascript" } ] },
          result := handleResponse project resp }
      | _ => { request := none, result := .error .notFound }

/-! ## Concrete fixtures

Small filesystems and responses the example theorems evaluate on. -/

/-- A root holding one results directory with one report file. -/
def fsW : Entry :=
  .dir (.cons "results" (.dir (.cons "r.json" (.file [1, 2]) .nil)) .nil)

/-- The same root plus an unrelated sibling file, used to show the
string-typed config never touches the filesystem. -/
def fsW2 : Entry :=
  .dir (.cons "results" (.dir (.cons "r.json" (.file [1, 2]) .nil))
    (.cons "allure.config.mjs" (.file [42]) .nil))

/-- A nested results directory: one file at the root, one in a
subdirectory. -/
def lW : Listing :=
  .cons "a.json" (.file [7])
    (.cons "sub" (.dir (.cons "b.json" (.file [8, 9]) .nil)) .nil)

/-- A root holding `lW` under `res`. -/
def fsW6 : Entry := .dir (.cons "res" (.dir lW) .nil)

/-- A plain 200 response with an empty JSON object body. -/
def respW : Response := ⟨200, "application/json", "\x7b\x7d"⟩

/-! ## Character and digit lemmas -/

theorem char_valid_nat (c : Char) :
    c.toNat < 0xd800 ∨ (0xdfff < c.toNat ∧ c.toNat < 0x110000) := by
  have h := c.valid
  simp only [UInt32.isValidChar, Nat.isValidChar, Char.toNat] at h ⊢
  exact h

theorem char_ne_of_toNat_ne {c d : Char} (h : c.toNat ≠ d.toNat) : c ≠ d :=
  fun he => h (he ▸ rfl)

theorem digitCh_toNat : ∀ n, n < 10 → (digitCh n).toNat = 48 + n := by decide

theorem hexVal_hexCh : ∀ n, n < 16 → hexVal (hexCh n) = some n := by decide

theorem isDigitCh_digitCh : ∀ n, n < 10 → isDigitCh (digitCh n) = true := by decide

/-- Head of the printed digits of a natural number. -/
theorem natChars_cons (n : Nat) :
    ∃ d ds, natChars n = d :: ds ∧ isDigitCh d = true := by
  induction n using natChars.induct with
  | case1 n h =>
    exact ⟨digitCh n, [], by rw [natChars]; simp [h], isDigitCh_digitCh n h⟩
  | case2 n h ih =>
    obtain ⟨d, ds, hds, hdig⟩ := ih
    exact ⟨d, ds ++ [digitCh (n % 10)], by rw [natChars]; simp [h, hds], hdig⟩

/-- Consuming a digit run: `digitsVal` folds the printed digits of `n`
into the accumulator. -/
theorem digitsVal_natChars (n : Nat) :
    ∀ acc rest, digitsVal acc (natChars n ++ rest) =
      digitsVal (acc * 10 ^ (natChars n).length + n) rest := by
  induction n using natChars.induct with
  | case1 n h =>
    intro acc rest
    rw [natChars]
    simp [h, digitsVal, isDigitCh_digitCh n h, digitCh_toNat n h]
  | case2 n h ih =>
    intro acc rest
    rw [natChars]
    simp only [dif_neg h, List.append_assoc, List.cons_append, List.nil_append]
    rw [ih]
    have h10 : n % 10 < 10 := Nat.mod_lt _ (by omega)
    simp only [digitsVal, isDigitCh_digitCh _ h10, if_pos, digitCh_toNat _ h10,
      List.length_append, List.length_cons, List.length_nil]
    congr 1
    rw [pow_succ]
    ring_nf
    omega

theorem digitsVal_stop (acc : Nat) (rest : List Char) (h : headNotDigit rest = true) :
    digitsVal acc rest = (acc, rest) := by
  cases rest with
  | nil => rfl
  | cons c cs =>
    simp only [headNotDigit, Bool.not_eq_true'] at h
    simp [digitsVal, h]

/-- Parsing the printed integer recovers it. -/
theorem parseIntChars_intChars (k : Int) (rest : List Char) (h : headNotDigit rest = true) :
    parseIntChars (intChars k ++ rest) = some (k, rest) := by
  cases k with
  | ofNat n =>
    obtain ⟨d, ds, hds, hdig⟩ := natChars_cons n
    have h1 : digitsVal 0 (natChars n ++ rest) = (n, rest) := by
      rw [digitsVal_natChars]
      simpa using digitsVal_stop n rest h
    rw [hds] at h1
    simp only [List.cons_append, digitsVal, hdig, if_true, Nat.zero_mul, Nat.zero_add] at h1
    have hd45 : d ≠ '-' := by
      apply char_ne_of_toNat_ne
      simp only [isDigitCh, Bool.and_eq_true, decide_eq_true_eq] at hdig
      have h45 : ('-' : Char).toNat = 45 := rfl
      omega
    simp only [List.append_eq] at h1
    simp only [intChars, hds, List.cons_append, parseIntChars, hd45, if_false, hdig, if_true]
    simp [h1]
  | negSucc m =>
    obtain ⟨d, ds, hds, hdig⟩ := natChars_cons (m + 1)
    have h1 : digitsVal 0 (natChars (m + 1) ++ rest) = (m + 1, rest) := by
      rw [digitsVal_natChars]
      simpa using digitsVal_stop (m + 1) rest h
    rw [hds] at h1
    simp only [List.cons_append, digitsVal, hdig, if_true, Nat.zero_mul, Nat.zero_add] at h1
    simp only [List.append_eq] at h1
    simp only [intChars, hds, List.cons_append, parseIntChars, if_true, hdig]
    simp [h1, Int.negSucc_eq]


/-! ## String round trip -/

theorem parseStrBody_quote (fuel : Nat) (rest : List Char) :
    parseStrBody (fuel + 1) ('"' :: rest) = some ([], rest) := by
  simp +decide [parseStrBody]

theorem parseStrBody_esc_step (fuel : Nat) (e : Char) (k : List Char) (c2 : Char)
    (rest3 : List Char) (he : parseEsc e k = some (c2, rest3)) (s' : List Char)
    (r : List Char) (hX : parseStrBody fuel rest3 = some (s', r)) :
    parseStrBody (fuel + 1) ('\\' :: e :: k) = some (c2 :: s', r) := by
  simp +decide [parseStrBody, he, hX]

theorem parseStrBody_plain (fuel : Nat) (c : Char) (rest : List Char) (h1 : ¬c = '"')
    (h2 : ¬c = '\\') (h3 : ¬c.toNat < 0x20) (s' : List Char) (r : List Char)
    (hX : parseStrBody fuel rest = some (s', r)) :
    parseStrBody (fuel + 1) (c :: rest) = some (c :: s', r) := by
  simp only [parseStrBody, if_neg h1, if_neg h2, if_neg h3, hX]

theorem parseU_hex4 (n : Nat) (h : n < 0x10000) (X : List Char) :
    parseU (hex4 n ++ X) = some (n, X) := by
  have h1 : n / 4096 % 16 < 16 := Nat.mod_lt _ (by omega)
  have h2 : n / 256 % 16 < 16 := Nat.mod_lt _ (by omega)
  have h3 : n / 16 % 16 < 16 := Nat.mod_lt _ (by omega)
  have h4 : n % 16 < 16 := Nat.mod_lt _ (by omega)
  simp only [hex4, List.cons_append, List.nil_append, parseU,
    hexVal_hexCh _ h1, hexVal_hexCh _ h2, hexVal_hexCh _ h3, hexVal_hexCh _ h4]
  rw [show n / 4096 % 16 * 4096 + n / 256 % 16 * 256 + n / 16 % 16 * 16 + n % 16 = n
    from by omega]

theorem parseLowSur_pair (n m : Nat) (hm : 0xdc00 ≤ m ∧ m ≤ 0xdfff) (X : List Char) :
    parseLowSur n ('\\' :: 'u' :: (hex4 m ++ X)) =
      some (Char.ofNat (0x10000 + (n - 0xd800) * 1024 + (m - 0xdc00)), X) := by
  rw [parseLowSur.eq_def]
  simp only []
  rw [if_pos (⟨trivial, trivial⟩ : True ∧ True)]
  rw [parseU_hex4 m (by omega) X]
  simp only []
  rw [if_pos hm]

theorem parseEsc_u_bmp (c : Char) (h : c.toNat < 0x10000) (X : List Char) :
    parseEsc 'u' (hex4 c.toNat ++ X) = some (c, X) := by
  have hv := char_valid_nat c
  simp only [parseEsc, if_pos]
  rw [parseU_hex4 _ h]
  simp only []
  rw [if_neg (by omega), if_neg (by omega), Char.ofNat_toNat]

theorem parseEsc_u_astral (c : Char) (h : 0x10000 ≤ c.toNat) (X : List Char) :
    parseEsc 'u' (hex4 (0xd800 + (c.toNat - 0x10000) / 1024) ++
      ('\\' :: 'u' :: (hex4 (0xdc00 + (c.toNat - 0x10000) % 1024) ++ X))) = some (c, X) := by
  have hv := char_valid_nat c
  have hhi : 0xd800 + (c.toNat - 0x10000) / 1024 < 0x10000 := by omega
  simp only [parseEsc, if_pos]
  rw [parseU_hex4 _ hhi]
  simp only []
  rw [if_pos (by omega :
    0xd800 ≤ 0xd800 + (c.toNat - 0x10000) / 1024 ∧
      0xd800 + (c.toNat - 0x10000) / 1024 ≤ 0xdbff)]
  rw [parseLowSur_pair _ _ (by omega) X]
  rw [show 0x10000 + (0xd800 + (c.toNat - 0x10000) / 1024 - 0xd800) * 1024 +
      (0xdc00 + (c.toNat - 0x10000) % 1024 - 0xdc00) = c.toNat from by omega]
  rw [Char.ofNat_toNat]

/-- Every character escapes to at least one output character. -/
theorem escapeChar_length_pos (c : Char) : 1 ≤ (escapeChar c).length := by
  rw [escapeChar]
  split_ifs <;> simp [hex4]

/-- Escaping never shortens a string. -/
theorem escChars_length (s : List Char) : s.length ≤ (escChars s).length := by
  induction s with
  | nil => simp [escChars]
  | cons c cs ih =>
    have := escapeChar_length_pos c
    simp only [escChars, List.length_append, List.length_cons]
    omega

/-- One escaped character parses back to itself. -/
theorem parseStrBody_escapeChar (fuel : Nat) (c : Char) (X : List Char) (s' : List Char)
    (r : List Char) (hX : parseStrBody fuel X = some (s', r)) :
    parseStrBody (fuel + 1) (escapeChar c ++ X) = some (c :: s', r) := by
  rw [escapeChar]
  split_ifs with h1 h2 h3 h4 h5 h6 h7 h8 h9
  · subst h1
    exact parseStrBody_esc_step _ _ _ _ _ (by simp +decide [parseEsc, escShort]) _ _ hX
  · subst h2
    exact parseStrBody_esc_step _ _ _ _ _ (by simp +decide [parseEsc, escShort]) _ _ hX
  · subst h3
    exact parseStrBody_esc_step _ _ _ _ _ (by simp +decide [parseEsc, escShort]) _ _ hX
  · subst h4
    exact parseStrBody_esc_step _ _ _ _ _ (by simp +decide [parseEsc, escShort]) _ _ hX
  · subst h5
    exact parseStrBody_esc_step _ _ _ _ _ (by simp +decide [parseEsc, escShort]) _ _ hX
  · subst h6
    exact parseStrBody_esc_step _ _ _ _ _ (by simp +decide [parseEsc, escShort]) _ _ hX
  · subst h7
    exact parseStrBody_esc_step _ _ _ _ _ (by simp +decide [parseEsc, escShort]) _ _ hX
  · simp only [List.singleton_append]
    exact parseStrBody_plain fuel c X h1 h2 (by omega) s' r hX
  · simp only [List.cons_append, List.append_assoc]
    exact parseStrBody_esc_step fuel 'u' _ c X (parseEsc_u_bmp c h9 X) s' r hX
  · simp only [List.cons_append, List.append_assoc, List.nil_append]
    exact parseStrBody_esc_step fuel 'u' _ c X (parseEsc_u_astral c (by omega) X) s' r hX

/-- A dumped string body parses back to the original characters, with
fuel past the decoded length. -/
theorem parseStrBody_escChars (s : List Char) (rest : List Char) :
    ∀ fuel, s.length < fuel → parseStrBody fuel (escChars s ++ '"' :: rest) = some (s, rest) := by
  induction s with
  | nil =>
    intro fuel hfuel
    cases fuel with
    | zero => omega
    | succ f => simpa [escChars] using parseStrBody_quote f rest
  | cons c cs ih =>
    intro fuel hfuel
    cases fuel with
    | zero => omega
    | succ f =>
      simp only [escChars, List.append_assoc]
      exact parseStrBody_escapeChar f c _ cs rest
        (ih f (by simp at hfuel; omega))

/-! ## Value round trip -/

theorem string_mk_data (s : String) : String.mk s.data = s := rfl

theorem skipWs_cons (c : Char) (cs : List Char) (h : isWsCh c = false) :
    skipWs (c :: cs) = c :: cs := by
  simp [skipWs, h]

theorem parseVal_ws (fuel : Nat) (c : Char) (cs : List Char) (h : isWsCh c = true) :
    parseVal fuel (c :: cs) = parseVal fuel cs := by
  have hs : skipWs (c :: cs) = skipWs cs := by simp [skipWs, h]
  cases fuel with
  | zero => rfl
  | succ f =>
    rw [parseVal.eq_def, parseVal.eq_def]
    simp only [hs]

theorem sizeJ_pos (v : Json) : 1 ≤ sizeJ v := by
  cases v with
  | arr xs => cases xs <;> simp [sizeJ]
  | obj kvs => cases kvs <;> simp [sizeJ]
  | null => simp [sizeJ]
  | bool b => simp [sizeJ]
  | num n => simp [sizeJ]
  | str s => simp [sizeJ]

/-- The branch facts a digit head settles in the parser dispatch. -/
theorem digit_head (d : Char) (hd : isDigitCh d = true) :
    d ≠ '"' ∧ d ≠ '[' ∧ d ≠ '\x7b' ∧ d ≠ 'n' ∧ d ≠ 't' ∧ d ≠ 'f' ∧ isWsCh d = false := by
  simp only [isDigitCh, Bool.and_eq_true, decide_eq_true_eq] at hd
  have hws : isWsCh d = false := by
    cases hwsE : isWsCh d
    · rfl
    · exfalso
      simp only [isWsCh, Bool.or_eq_true, decide_eq_true_eq] at hwsE
      rcases hwsE with ((h | h) | h) | h <;> subst h <;> revert hd <;> decide
  refine ⟨char_ne_of_toNat_ne ?_, char_ne_of_toNat_ne ?_, char_ne_of_toNat_ne ?_,
    char_ne_of_toNat_ne ?_, char_ne_of_toNat_ne ?_, char_ne_of_toNat_ne ?_, hws⟩
  · have : ('"' : Char).toNat = 34 := rfl
    omega
  · have : ('[' : Char).toNat = 91 := rfl
    omega
  · have : ('\x7b' : Char).toNat = 123 := rfl
    omega
  · have : ('n' : Char).toNat = 110 := rfl
    omega
  · have : ('t' : Char).toNat = 116 := rfl
    omega
  · have : ('f' : Char).toNat = 102 := rfl
    omega

/-- Every dumped value starts with a character that is not whitespace
and not one of the closing delimiters. -/
theorem dump_head_spec (v : Json) :
    ∃ c cs, dumpJson v = c :: cs ∧ isWsCh c = false ∧ c ≠ ']' ∧ c ≠ '\x7d' ∧ c ≠ ',' := by
  cases v with
  | null => exact ⟨'n', _, rfl, by decide, by decide, by decide, by decide⟩
  | bool b =>
    cases b with
    | false => exact ⟨'f', _, rfl, by decide, by decide, by decide, by decide⟩
    | true => exact ⟨'t', _, rfl, by decide, by decide, by decide, by decide⟩
  | num k =>
    cases k with
    | ofNat n =>
      obtain ⟨d, ds, hds, hdig⟩ := natChars_cons n
      refine ⟨d, ds, by simp [dumpJson, intChars, hds], (digit_head d hdig).2.2.2.2.2.2, ?_, ?_, ?_⟩
      · simp only [isDigitCh, Bool.and_eq_true, decide_eq_true_eq] at hdig
        exact char_ne_of_toNat_ne (by have : (']' : Char).toNat = 93 := rfl; omega)
      · simp only [isDigitCh, Bool.and_eq_true, decide_eq_true_eq] at hdig
        exact char_ne_of_toNat_ne (by have : ('\x7d' : Char).toNat = 125 := rfl; omega)
      · simp only [isDigitCh, Bool.and_eq_true, decide_eq_true_eq] at hdig
        exact char_ne_of_toNat_ne (by have : (',' : Char).toNat = 44 := rfl; omega)
    | negSucc m =>
      exact ⟨'-', natChars (m + 1), by simp [dumpJson, intChars], by decide, by decide, by decide, by decide⟩
  | str s => exact ⟨'"', _, rfl, by decide, by decide, by decide, by decide⟩
  | arr xs =>
    cases xs with
    | nil => exact ⟨'[', _, rfl, by decide, by decide, by decide, by decide⟩
    | cons h t => exact ⟨'[', _, rfl, by decide, by decide, by decide, by decide⟩
  | obj kvs =>
    cases kvs with
    | nil => exact ⟨'\x7b', _, rfl, by decide, by decide, by decide, by decide⟩
    | cons k v t => exact ⟨'\x7b', _, rfl, by decide, by decide, by decide, by decide⟩

theorem headNotDigit_arrTail (t : JsonArr) (rest : List Char) :
    headNotDigit (dumpArrTail t ++ ']' :: rest) = true := by
  cases t <;> simp +decide [dumpArrTail, headNotDigit, isDigitCh]

theorem headNotDigit_objTail (t : JsonObj) (rest : List Char) :
    headNotDigit (dumpObjTail t ++ '\x7d' :: rest) = true := by
  cases t <;> simp +decide [dumpObjTail, headNotDigit, isDigitCh]


theorem sizeA_pos (t : JsonArr) : 1 ≤ sizeA t := by
  cases t <;> simp [sizeA]

theorem sizeO_pos (t : JsonObj) : 1 ≤ sizeO t := by
  cases t <;> simp [sizeO]

mutual

/-- Parsing the dumped form of a value recovers the value, with enough
fuel and any continuation that does not extend a digit run. -/
theorem parseVal_dump (v : Json) :
    ∀ fuel rest, sizeJ v ≤ fuel → headNotDigit rest = true →
      parseVal fuel (dumpJson v ++ rest) = some (v, rest) := by
  cases v with
  | null =>
    intro fuel rest hf _
    cases fuel with
    | zero => exact absurd hf (by simp [sizeJ])
    | succ f =>
      rw [parseVal.eq_def]
      simp +decide [dumpJson, skipWs]
  | bool b =>
    intro fuel rest hf _
    cases fuel with
    | zero => exact absurd hf (by simp [sizeJ])
    | succ f =>
      rw [parseVal.eq_def]
      cases b <;> simp +decide [dumpJson, skipWs]
  | num k =>
    intro fuel rest hf hnd
    cases fuel with
    | zero => exact absurd hf (by simp [sizeJ])
    | succ f =>
      rw [parseVal.eq_def]
      cases k with
      | ofNat n =>
        obtain ⟨d, ds, hds, hdig⟩ := natChars_cons n
        obtain ⟨hq, hlb, hob2, hn, ht, hfc, hws⟩ := digit_head d hdig
        simp only [dumpJson, intChars, hds, List.cons_append]
        rw [skipWs_cons d _ hws]
        simp only [if_neg hq, if_neg hlb, if_neg hob2, if_neg hn, if_neg ht, if_neg hfc]
        rw [show d :: (ds ++ rest) = intChars (Int.ofNat n) ++ rest from by
          simp [intChars, hds]]
        rw [parseIntChars_intChars _ _ hnd]
      | negSucc m =>
        simp only [dumpJson, intChars, List.cons_append]
        rw [skipWs_cons '-' _ (by decide)]
        simp +decide only [if_neg, if_false]
        rw [show '-' :: (natChars (m + 1) ++ rest) = intChars (Int.negSucc m) ++ rest from by
          simp [intChars]]
        rw [parseIntChars_intChars _ _ hnd]
  | str s =>
    intro fuel rest hf _
    cases fuel with
    | zero => exact absurd hf (by simp [sizeJ])
    | succ f =>
      rw [parseVal.eq_def]
      simp only [dumpJson, List.cons_append, List.append_assoc, List.nil_append,
        List.singleton_append]
      rw [skipWs_cons '"' _ (by decide)]
      simp +decide only [if_pos, if_true, if_neg, if_false]
      rw [parseStrBody_escChars s.data rest _ (by
        have := escChars_length s.data
        simp only [List.length_append, List.length_cons]
        omega)]
  | arr xs =>
    cases xs with
    | nil =>
      intro fuel rest hf _
      cases fuel with
      | zero => exact absurd hf (by simp [sizeJ])
      | succ f =>
        rw [parseVal.eq_def]
        simp +decide [dumpJson, skipWs]
    | cons h t =>
      intro fuel rest hf hnd
      cases fuel with
      | zero =>
        exfalso
        simp only [sizeJ] at hf
        omega
      | succ f =>
        have hmax : Nat.max (sizeJ h) (sizeA t) ≤ f := by
          simp only [sizeJ] at hf
          omega
        have hfh : sizeJ h ≤ f := le_trans (Nat.le_max_left _ _) hmax
        have hft : sizeA t ≤ f := le_trans (Nat.le_max_right _ _) hmax
        rw [parseVal.eq_def]
        simp only [dumpJson, List.cons_append, List.append_assoc, List.nil_append, List.singleton_append]
        rw [skipWs_cons '[' _ (by decide)]
        simp +decide only [if_neg, if_false, if_pos, if_true]
        obtain ⟨c0, cs0, hd0, hws0, hrb, hob2, hcm⟩ := dump_head_spec h
        rw [hd0, List.cons_append, skipWs_cons c0 _ hws0]
        simp only [if_neg hrb]
        rw [show c0 :: (cs0 ++ (dumpArrTail t ++ ']' :: rest)) =
            dumpJson h ++ (dumpArrTail t ++ ']' :: rest) from by rw [hd0]; simp]
        simp only [parseVal_dump h f _ hfh (headNotDigit_arrTail t rest),
          parseArrTail_dump t f rest hft hnd]
  | obj kvs =>
    cases kvs with
    | nil =>
      intro fuel rest hf _
      cases fuel with
      | zero => exact absurd hf (by simp [sizeJ])
      | succ f =>
        rw [parseVal.eq_def]
        simp +decide [dumpJson, skipWs]
    | cons k v t =>
      intro fuel rest hf hnd
      cases fuel with
      | zero =>
        exfalso
        simp only [sizeJ] at hf
        omega
      | succ f =>
        have hmax : Nat.max (sizeJ v) (sizeO t) ≤ f := by
          simp only [sizeJ] at hf
          omega
        have hfv : sizeJ v ≤ f := le_trans (Nat.le_max_left _ _) hmax
        have hft : sizeO t ≤ f := le_trans (Nat.le_max_right _ _) hmax
        rw [parseVal.eq_def]
        simp only [dumpJson, List.cons_append, List.append_assoc, List.nil_append, List.singleton_append]
        rw [skipWs_cons '\x7b' _ (by decide)]
        simp +decide only [if_neg, if_false, if_pos, if_true]
        simp +decide only [skipWs_cons '"' _ (by decide), if_neg, if_false, if_pos,
          if_true]
        rw [parseStrBody_escChars k.data _ _ (by
          have := escChars_length k.data
          simp only [List.length_append, List.length_cons]
          omega)]
        simp +decide only [skipWs_cons ':' _ (by decide), if_neg, if_false, if_pos,
          if_true, parseVal_ws f ' ' _ (by decide),
          parseVal_dump v f _ hfv (headNotDigit_objTail t rest),
          parseObjTail_dump t f rest hft hnd, string_mk_data]

/-- Parsing a dumped array tail (after the first item) recovers it. -/
theorem parseArrTail_dump (t : JsonArr) :
    ∀ fuel rest, sizeA t ≤ fuel → headNotDigit rest = true →
      parseArrTail fuel (dumpArrTail t ++ ']' :: rest) = some (t, rest) := by
  cases t with
  | nil =>
    intro fuel rest hf _
    cases fuel with
    | zero => exact absurd hf (by simp [sizeA])
    | succ f =>
      rw [parseArrTail.eq_def]
      simp +decide [dumpArrTail, skipWs]
  | cons h t =>
    intro fuel rest hf hnd
    cases fuel with
    | zero =>
      exfalso
      simp only [sizeA] at hf
      omega
    | succ f =>
      have hmax : Nat.max (sizeJ h) (sizeA t) ≤ f := by
        simp only [sizeA] at hf
        omega
      have hfh : sizeJ h ≤ f := le_trans (Nat.le_max_left _ _) hmax
      have hft : sizeA t ≤ f := le_trans (Nat.le_max_right _ _) hmax
      rw [parseArrTail.eq_def]
      simp only [dumpArrTail, List.cons_append, List.append_assoc, List.nil_append, List.singleton_append]
      rw [skipWs_cons ',' _ (by decide)]
      simp +decide only [if_neg, if_false, if_pos, if_true]
      simp only [parseVal_ws f ' ' _ (by decide),
        parseVal_dump h f _ hfh (headNotDigit_arrTail t rest),
        parseArrTail_dump t f rest hft hnd]

/-- Parsing a dumped object tail (after the first member) recovers it. -/
theorem parseObjTail_dump (t : JsonObj) :
    ∀ fuel rest, sizeO t ≤ fuel → headNotDigit rest = true →
      parseObjTail fuel (dumpObjTail t ++ '\x7d' :: rest) = some (t, rest) := by
  cases t with
  | nil =>
    intro fuel rest hf _
    cases fuel with
    | zero => exact absurd hf (by simp [sizeO])
    | succ f =>
      rw [parseObjTail.eq_def]
      simp +decide [dumpObjTail, skipWs]
  | cons k v t =>
    intro fuel rest hf hnd
    cases fuel with
    | zero =>
      exfalso
      simp only [sizeO] at hf
      omega
    | succ f =>
      have hmax : Nat.max (sizeJ v) (sizeO t) ≤ f := by
        simp only [sizeO] at hf
        omega
      have hfv : sizeJ v ≤ f := le_trans (Nat.le_max_left _ _) hmax
      have hft : sizeO t ≤ f := le_trans (Nat.le_max_right _ _) hmax
      rw [parseObjTail.eq_def]
      simp only [dumpObjTail, List.cons_append, List.append_assoc, List.nil_append, List.singleton_append]
      rw [skipWs_cons ',' _ (by decide)]
      simp +decide only [if_neg, if_false, if_pos, if_true]
      simp +decide only [skipWs, if_neg, if_false, if_pos, if_true,
        skipWs_cons '"' _ (by decide)]
      rw [parseStrBody_escChars k.data _ _ (by
        have := escChars_length k.data
        simp only [List.length_append, List.length_cons]
        omega)]
      simp +decide only [skipWs_cons ':' _ (by decide), if_neg, if_false, if_pos,
        if_true, parseVal_ws f ' ' _ (by decide),
        parseVal_dump v f _ hfv (headNotDigit_objTail t rest),
        parseObjTail_dump t f rest hft hnd, string_mk_data]

end


mutual

/-- The parse fuel a value needs is at most its printed length. -/
theorem sizeJ_le (v : Json) : sizeJ v ≤ (dumpJson v).length := by
  cases v with
  | null => simp [sizeJ, dumpJson]
  | bool b => cases b <;> simp [sizeJ, dumpJson]
  | num k =>
    cases k with
    | ofNat n =>
      obtain ⟨d, ds, hds, -⟩ := natChars_cons n
      simp [sizeJ, dumpJson, intChars, hds]
    | negSucc m => simp [sizeJ, dumpJson, intChars]
  | str s => simp [sizeJ, dumpJson]
  | arr xs =>
    cases xs with
    | nil => simp [sizeJ, dumpJson]
    | cons h t =>
      have h1 := sizeJ_le h
      have h2 := sizeA_le t
      have hm : Nat.max (sizeJ h) (sizeA t) ≤
          (dumpJson h).length + (dumpArrTail t).length + 1 :=
        Nat.max_le.mpr ⟨by omega, by omega⟩
      simp only [sizeJ, dumpJson, List.length_cons, List.length_append,
        List.length_singleton]
      omega
  | obj kvs =>
    cases kvs with
    | nil => simp [sizeJ, dumpJson]
    | cons k v t =>
      have h1 := sizeJ_le v
      have h2 := sizeO_le t
      have hm : Nat.max (sizeJ v) (sizeO t) ≤
          (dumpJson v).length + (dumpObjTail t).length + 1 :=
        Nat.max_le.mpr ⟨by omega, by omega⟩
      simp only [sizeJ, dumpJson, List.length_cons, List.length_append,
        List.length_singleton]
      omega

/-- Fuel bound for array tails: one column of slack for the closing
bracket. -/
theorem sizeA_le (t : JsonArr) : sizeA t ≤ (dumpArrTail t).length + 1 := by
  cases t with
  | nil => simp [sizeA, dumpArrTail]
  | cons h t =>
    have h1 := sizeJ_le h
    have h2 := sizeA_le t
    have hm : Nat.max (sizeJ h) (sizeA t) ≤
        (dumpJson h).length + (dumpArrTail t).length + 1 :=
      Nat.max_le.mpr ⟨by omega, by omega⟩
    simp only [sizeA, dumpArrTail, List.length_cons, List.length_append]
    omega

/-- Fuel bound for object tails. -/
theorem sizeO_le (t : JsonObj) : sizeO t ≤ (dumpObjTail t).length + 1 := by
  cases t with
  | nil => simp [sizeO, dumpObjTail]
  | cons k v t =>
    have h1 := sizeJ_le v
    have h2 := sizeO_le t
    have hm : Nat.max (sizeJ v) (sizeO t) ≤
        (dumpJson v).length + (dumpObjTail t).length + 1 :=
      Nat.max_le.mpr ⟨by omega, by omega⟩
    simp only [sizeO, dumpObjTail, List.length_cons, List.length_append]
    omega

end

/-- The decoder inverts the serializer on every JSON value. -/
theorem loads_dumps (v : Json) : loads (dumps v) = some v := by
  have hp := parseVal_dump v ((dumpJson v).length + 1) []
    (by have := sizeJ_le v; omega) (by decide)
  rw [List.append_nil] at hp
  simp [loads, dumps, String.length, hp, skipWs]


/-! ## Archiver correctness -/

theorem lookupList_nameIn : ∀ {l : Listing} {m : String} {e : Entry},
    lookupList l m = some e → nameIn m l = true
  | .nil, m, e, h => by simp [lookupList] at h
  | .cons n e0 tl, m, e, h => by
    simp only [lookupList] at h
    simp only [nameIn, Bool.or_eq_true, decide_eq_true_eq]
    by_cases hm : n = m
    · exact Or.inl hm
    · rw [if_neg hm] at h
      exact Or.inr (lookupList_nameIn h)

mutual

theorem walkEntry_length (name : String) (e : Entry) :
    (walkEntry name e).length = countFilesE e := by
  cases e with
  | file c => simp [walkEntry, countFilesE]
  | dir l => simp [walkEntry, countFilesE, walkListing_length l]

theorem walkListing_length (l : Listing) :
    (walkListing l).length = countFilesL l := by
  cases l with
  | nil => simp [walkListing, countFilesL]
  | cons n e tl =>
    simp [walkListing, countFilesL, walkEntry_length n e, walkListing_length tl]

end

mutual

/-- Every file the walk of one child reports is really there. -/
theorem walkE_sound (name : String) (e : Entry) :
    wfE e = true → ∀ p c, (p, c) ∈ walkEntry name e →
      ∃ q, p = name :: q ∧ entryFileAt e q = some c := by
  cases e with
  | file cf =>
    intro _ p c hm
    simp only [walkEntry, List.mem_singleton, Prod.mk.injEq] at hm
    exact ⟨[], hm.1, by rw [← hm.2]; rfl⟩
  | dir l =>
    intro hwf p c hm
    simp only [walkEntry, List.mem_map, Prod.mk.injEq] at hm
    obtain ⟨⟨q, c0⟩, hq, hpq, hc⟩ := hm
    refine ⟨q, hpq.symm, ?_⟩
    have hs := walkL_sound l (by simpa [wfE] using hwf) q c0 hq
    subst hc
    cases q with
    | nil => simp [fileAtL] at hs
    | cons q0 qs => simpa [entryFileAt] using hs

/-- Every file the walk of a listing reports is found by the lookup. -/
theorem walkL_sound (l : Listing) :
    wfL l = true → ∀ p c, (p, c) ∈ walkListing l → fileAtL l p = some c := by
  cases l with
  | nil =>
    intro _ p c hm
    simp [walkListing] at hm
  | cons n e tl =>
    intro hwf p c hm
    have hw : nameIn n tl = false ∧ wfE e = true ∧ wfL tl = true := by
      simp only [wfL, Bool.and_eq_true, Bool.not_eq_true'] at hwf
      exact ⟨hwf.1.1.1, hwf.1.2, hwf.2⟩
    simp only [walkListing, List.mem_append] at hm
    rcases hm with hm | hm
    · obtain ⟨q, hpq, hfa⟩ := walkE_sound n e hw.2.1 p c hm
      subst hpq
      cases e with
      | file cf =>
        cases q with
        | nil =>
          simp only [entryFileAt] at hfa
          simp [fileAtL, lookupList, hfa]
        | cons q0 qs => simp [entryFileAt] at hfa
      | dir l2 =>
        cases q with
        | nil => simp [entryFileAt] at hfa
        | cons q0 qs =>
          simp only [entryFileAt] at hfa
          simp [fileAtL, lookupList, hfa]
    · have hfa := walkL_sound tl hw.2.2 p c hm
      cases p with
      | nil => simp [fileAtL] at hfa
      | cons m q =>
        have hne : n ≠ m := by
          intro hnm
          subst hnm
          cases q with
          | nil =>
            simp only [fileAtL] at hfa
            match hq : lookupList tl n with
            | some (.file c0) => exact absurd (lookupList_nameIn hq) (by simp [hw.1])
            | some (.dir l2) => rw [hq] at hfa; simp at hfa
            | none => rw [hq] at hfa; simp at hfa
          | cons q1 qs =>
            simp only [fileAtL] at hfa
            match hq : lookupList tl n with
            | some (.dir l2) => exact absurd (lookupList_nameIn hq) (by simp [hw.1])
            | some (.file c0) => rw [hq] at hfa; simp at hfa
            | none => rw [hq] at hfa; simp at hfa
        cases q with
        | nil =>
          simp only [fileAtL, lookupList, if_neg hne] at hfa ⊢
          exact hfa
        | cons q1 qs =>
          simp only [fileAtL, lookupList, if_neg hne] at hfa ⊢
          exact hfa

end

mutual

/-- Every file the lookup finds under a child appears in its walk. -/
theorem walkE_complete (name : String) (e : Entry) :
    ∀ q c, entryFileAt e q = some c → (name :: q, c) ∈ walkEntry name e := by
  cases e with
  | file cf =>
    intro q c hq
    cases q with
    | nil =>
      simp only [entryFileAt, Option.some_inj] at hq
      simp [walkEntry, hq]
    | cons q0 qs => simp [entryFileAt] at hq
  | dir l =>
    intro q c hq
    cases q with
    | nil => simp [entryFileAt] at hq
    | cons q0 qs =>
      simp only [entryFileAt] at hq
      have := walkL_complete l (q0 :: qs) c hq
      simp only [walkEntry, List.mem_map, Prod.mk.injEq]
      exact ⟨(q0 :: qs, c), this, rfl, rfl⟩

/-- Every file the lookup finds appears in the walk. -/
theorem walkL_complete (l : Listing) :
    ∀ p c, fileAtL l p = some c → (p, c) ∈ walkListing l := by
  cases l with
  | nil =>
    intro p c hp
    cases p with
    | nil => simp [fileAtL] at hp
    | cons m q =>
      cases q with
      | nil => simp [fileAtL, lookupList] at hp
      | cons q1 qs => simp [fileAtL, lookupList] at hp
  | cons n e tl =>
    intro p c hp
    cases p with
    | nil => simp [fileAtL] at hp
    | cons m q =>
      by_cases hnm : n = m
      · subst hnm
        cases e with
        | file cf =>
          cases q with
          | nil =>
            simp [fileAtL, lookupList] at hp
            simp [walkListing, walkEntry, hp]
          | cons q1 qs => simp [fileAtL, lookupList] at hp
        | dir l2 =>
          cases q with
          | nil => simp [fileAtL, lookupList] at hp
          | cons q1 qs =>
            simp only [fileAtL, lookupList, if_pos rfl, if_true] at hp
            have := walkE_complete n (.dir l2) (q1 :: qs) c (by simpa [entryFileAt] using hp)
            simp only [walkListing, List.mem_append]
            exact Or.inl this
      · cases q with
        | nil =>
          simp only [fileAtL, lookupList, if_neg hnm] at hp
          have : fileAtL tl [m] = some c := by simpa [fileAtL] using hp
          simp only [walkListing, List.mem_append]
          exact Or.inr (walkL_complete tl [m] c this)
        | cons q1 qs =>
          simp only [fileAtL, lookupList, if_neg hnm] at hp
          have : fileAtL tl (m :: q1 :: qs) = some c := by simpa [fileAtL] using hp
          simp only [walkListing, List.mem_append]
          exact Or.inr (walkL_complete tl (m :: q1 :: qs) c this)

end


/-! ## Upload pipeline lemmas -/

theorem upload_zip_err (fs : Entry) (b p : String) (rd : List String)
    (meta : Option JsonObj) (config : Option ConfigArg) (resp : Response)
    (hz : zip_allure_results fs rd = .error ()) :
    upload fs b p rd meta config resp = ⟨none, .error .notFound⟩ := by
  unfold upload
  simp only [hz]

theorem upload_config_none (fs : Entry) (b p : String) (rd : List String)
    (meta : Option JsonObj) (resp : Response) (entries : List (String × List Nat))
    (hz : zip_allure_results fs rd = .ok entries) :
    upload fs b p rd meta none resp =
      ⟨some ⟨uploadUrl b p, [resultsPart entries, metaPart (metaMap meta)]⟩,
        handleResponse p resp⟩ := by
  unfold upload
  simp only [hz]

theorem upload_config_str_empty (fs : Entry) (b p : String) (rd : List String)
    (meta : Option JsonObj) (s : String) (resp : Response)
    (entries : List (String × List Nat))
    (hz : zip_allure_results fs rd = .ok entries) (hs : pyStrip s = "") :
    upload fs b p rd meta (some (.str s)) resp =
      ⟨some ⟨uploadUrl b p, [resultsPart entries, metaPart (metaMap meta)]⟩,
        handleResponse p resp⟩ := by
  unfold upload
  simp only [hz]
  simp [hs]

theorem upload_config_str_text (fs : Entry) (b p : String) (rd : List String)
    (meta : Option JsonObj) (s : String) (resp : Response)
    (entries : List (String × List Nat))
    (hz : zip_allure_results fs rd = .ok entries) (hs : ¬pyStrip s = "") :
    upload fs b p rd meta (some (.str s)) resp =
      ⟨some ⟨uploadUrl b p, [resultsPart entries, metaPart (metaMap meta),
          ⟨"config", some "allure.config.mjs", .text (pyStrip s), "text/javascript"⟩]⟩,
        handleResponse p resp⟩ := by
  unfold upload
  simp only [hz]
  simp [hs]

theorem upload_config_path_file (fs : Entry) (b p : String) (rd : List String)
    (meta : Option JsonObj) (pth : List String) (resp : Response)
    (entries : List (String × List Nat)) (bs : List Nat)
    (hz : zip_allure_results fs rd = .ok entries)
    (hp : lookupPath fs pth = some (.file bs)) :
    upload fs b p rd meta (some (.path pth)) resp =
      ⟨some ⟨uploadUrl b p, [resultsPart entries, metaPart (metaMap meta),
          ⟨"config", some (pth.getLastD ""), .bytes bs, "text/javascript"⟩]⟩,
        handleResponse p resp⟩ := by
  unfold upload
  simp only [hz, hp]
  rfl

theorem upload_config_path_dir (fs : Entry) (b p : String) (rd : List String)
    (meta : Option JsonObj) (pth : List String) (resp : Response)
    (entries : List (String × List Nat)) (l : Listing)
    (hz : zip_allure_results fs rd = .ok entries)
    (hp : lookupPath fs pth = some (.dir l)) :
    upload fs b p rd meta (some (.path pth)) resp = ⟨none, .error .notFound⟩ := by
  unfold upload
  simp only [hz, hp]

theorem upload_config_path_missing (fs : Entry) (b p : String) (rd : List String)
    (meta : Option JsonObj) (pth : List String) (resp : Response)
    (entries : List (String × List Nat))
    (hz : zip_allure_results fs rd = .ok entries)
    (hp : lookupPath fs pth = none) :
    upload fs b p rd meta (some (.path pth)) resp = ⟨none, .error .notFound⟩ := by
  unfold upload
  simp only [hz, hp]

/-- The response handler never produces the pre-network `notFound`
error: its errors are HTTP status, content type, or a malformed body. -/
theorem handleResponse_ne_notFound (p : String) (resp : Response) :
    handleResponse p resp ≠ .error .notFound := by
  unfold handleResponse
  split
  · split <;> simp
  · split
    · split <;> simp
    · simp

/-- Once the request is on the wire, the result is the response
handler's verdict on the one response. -/
theorem upload_result_of_sent (fs : Entry) (b p : String) (rd : List String)
    (meta : Option JsonObj) (config : Option ConfigArg) (resp : Response)
    (req : Request) (hsent : (upload fs b p rd meta config resp).request = some req) :
    (upload fs b p rd meta config resp).result = handleResponse p resp := by
  cases hz : zip_allure_results fs rd with
  | error e =>
    rw [upload_zip_err fs b p rd meta config resp (by rw [hz])] at hsent
    simp at hsent
  | ok entries =>
    cases config with
    | none => rw [upload_config_none fs b p rd meta resp entries hz]
    | some ca =>
      cases ca with
      | str s =>
        by_cases hs : pyStrip s = ""
        · rw [upload_config_str_empty fs b p rd meta s resp entries hz hs]
        · rw [upload_config_str_text fs b p rd meta s resp entries hz hs]
      | path pth =>
        cases hp : lookupPath fs pth with
        | none =>
          rw [upload_config_path_missing fs b p rd meta pth resp entries hz hp] at hsent
          simp at hsent
        | some e2 =>
          cases e2 with
          | file bs => rw [upload_config_path_file fs b p rd meta pth resp entries bs hz hp]
          | dir l2 =>
            rw [upload_config_path_dir fs b p rd meta pth resp entries l2 hz hp] at hsent
            simp at hsent


/-- The response handler on a non-JSON content type: the
`raise_for_status` check decides which error surfaces. -/
theorem handleResponse_nonjson (p : String) (resp : Response)
    (hct : substrChars "application/json".data resp.contentType.data = false) :
    handleResponse p resp =
      if raiseForStatus resp.status then .error (.httpStatus resp.status)
      else .error (.unexpectedContentType resp.contentType) := by
  unfold handleResponse
  rw [if_pos hct]

/-- The response handler on a JSON object body builds the result with
the per-field defaults. -/
theorem handleResponse_json (p : String) (resp : Response) (kvs : JsonObj)
    (hct : substrChars "application/json".data resp.contentType.data = true)
    (hbody : loads resp.body = some (.obj kvs)) (rid : Int)
    (hrid : pyInt (objGetD kvs "run_id" (.num 0)) = some rid) :
    handleResponse p resp = .ok
      { project := objGetD kvs "project" (.str p), run_id := rid,
        ui_url := objGetD kvs "ui_url" (.str ""),
        latest_url := objGetD kvs "latest_url" (.str ""),
        status := objGetD kvs "status" (.str "unknown"),
        error := pyOptional (objGet kvs "error") } := by
  unfold handleResponse
  rw [if_neg (by simp [hct])]
  simp only [hbody, hrid]


/-! ## Claims -/

/-- C1 (amended): for a response whose content-type header does not
contain `application/json`, the status check runs first and raises the
HTTP-status error exactly for 4xx/5xx statuses (the statuses
`raise_for_status` raises on); for every other status — 2xx, but also
1xx/3xx — upload raises the unexpected-content-type error carrying the
observed content-type string. -/
theorem claim_C1 (fs : Entry) (b p : String) (rd : List String)
    (meta : Option JsonObj) (config : Option ConfigArg) (resp : Response) (req : Request)
    (hsent : (upload fs b p rd meta config resp).request = some req)
    (hct : substrChars "application/json".data resp.contentType.data = false) :
    (400 ≤ resp.status ∧ resp.status ≤ 599 →
      (upload fs b p rd meta config resp).result = .error (.httpStatus resp.status)) ∧
    (¬(400 ≤ resp.status ∧ resp.status ≤ 599) →
      (upload fs b p rd meta config resp).result =
        .error (.unexpectedContentType resp.contentType)) := by
  rw [upload_result_of_sent fs b p rd meta config resp req hsent]
  rw [handleResponse_nonjson p resp hct]
  constructor
  · intro h
    rw [if_pos (by simp only [raiseForStatus, Bool.and_eq_true, decide_eq_true_eq]; omega)]
  · intro h
    rw [if_neg (by simp only [raiseForStatus, Bool.and_eq_true, decide_eq_true_eq]; omega)]

/-- C1 witness: a 503 with a `text/html` body raises the HTTP-status
error. -/
theorem claim_C1_witness :
    (upload fsW "http://h" "p1" ["results"] none none ⟨503, "text/html", "x"⟩).result =
      .error (.httpStatus 503) :=
  (claim_C1 fsW "http://h" "p1" ["results"] none none ⟨503, "text/html", "x"⟩
    ⟨uploadUrl "http://h" "p1", [resultsPart [("r.json", [1, 2])], metaPart .nil]⟩
    (by decide) (by decide)).1 (by decide)

/-- C1 counterexample: a 304 response is not 2xx, yet with a
`text/html` body upload raises the content-type error, not an
HTTP-status error — `raise_for_status` passes 3xx through.  This
refutes "the non-2xx + non-JSON case always surfaces the status
error". -/
theorem claim_C1_counterexample :
    (¬(200 ≤ 304 ∧ 304 ≤ 299)) ∧
    substrChars "application/json".data "text/html".data = false ∧
    (upload fsW "http://h" "p1" ["results"] none none ⟨304, "text/html", "x"⟩).result =
      .error (.unexpectedContentType "text/html") := by
  refine ⟨by decide, by decide, by decide⟩

/-- C2 (amended): upload performs no validation of `project` at all.
With the empty project id it archives the directory, sends the request
to the runs URL built from the empty id, and handles the response
normally. -/
theorem claim_C2 (fs : Entry) (b : String) (rd : List String) (meta : Option JsonObj)
    (resp : Response) (entries : List (String × List Nat))
    (hz : zip_allure_results fs rd = .ok entries) :
    (upload fs b "" rd meta none resp).request =
      some ⟨uploadUrl b "", [resultsPart entries, metaPart (metaMap meta)]⟩ ∧
    (upload fs b "" rd meta none resp).result = handleResponse "" resp := by
  rw [upload_config_none fs b "" rd meta resp entries hz]
  exact ⟨rfl, rfl⟩

/-- C2 witness: the empty project's request goes out with the double
slash in the URL path. -/
theorem claim_C2_witness :
    (upload fsW "http://h" "" ["results"] none none respW).request =
      some ⟨uploadUrl "http://h" "", [resultsPart [("r.json", [1, 2])], metaPart .nil]⟩ :=
  (claim_C2 fsW "http://h" ["results"] none respW [("r.json", [1, 2])] (by decide)).1

/-- C2 counterexample: with `project = ""` upload does not fail during
validation — it archives, sends a request (to
`/api/v1/projects//runs`), and returns a parsed result. -/
theorem claim_C2_counterexample :
    (upload fsW "http://h" "" ["results"] none none respW).request =
      some ⟨"http://h/api/v1/projects//runs",
        [resultsPart [("r.json", [1, 2])], metaPart .nil]⟩ ∧
    (upload fsW "http://h" "" ["results"] none none respW).result =
      .ok ⟨.str "", 0, .str "", .str "", .str "unknown", none⟩ := by
  refine ⟨by decide, by decide⟩

/-- C3 (amended): the serialized metadata JSON document is carried in a
multipart part named `meta` (not `results-metadata`), with no filename
and content type `application/json`. -/
theorem claim_C3 (fs : Entry) (b p : String) (rd : List String) (meta : Option JsonObj)
    (config : Option ConfigArg) (resp : Response) (req : Request)
    (hsent : (upload fs b p rd meta config resp).request = some req) :
    metaPart (metaMap meta) ∈ req.parts := by
  cases hz : zip_allure_results fs rd with
  | error e =>
    rw [upload_zip_err fs b p rd meta config resp (by rw [hz])] at hsent
    simp at hsent
  | ok entries =>
    cases config with
    | none =>
      rw [upload_config_none fs b p rd meta resp entries hz] at hsent
      injection hsent with h
      subst h
      simp
    | some ca =>
      cases ca with
      | str s =>
        by_cases hs : pyStrip s = ""
        · rw [upload_config_str_empty fs b p rd meta s resp entries hz hs] at hsent
          injection hsent with h
          subst h
          simp
        · rw [upload_config_str_text fs b p rd meta s resp entries hz hs] at hsent
          injection hsent with h
          subst h
          simp
      | path pth =>
        cases hp : lookupPath fs pth with
        | none =>
          rw [upload_config_path_missing fs b p rd meta pth resp entries hz hp] at hsent
          simp at hsent
        | some e2 =>
          cases e2 with
          | file bs =>
            rw [upload_config_path_file fs b p rd meta pth resp entries bs hz hp] at hsent
            injection hsent with h
            subst h
            simp
          | dir l2 =>
            rw [upload_config_path_dir fs b p rd meta pth resp entries l2 hz hp] at hsent
            simp at hsent

/-- C3 witness: the metadata part of a concrete upload. -/
theorem claim_C3_witness :
    metaPart (metaMap none) ∈
      (⟨uploadUrl "http://h" "p1", [resultsPart [("r.json", [1, 2])], metaPart .nil]⟩ :
        Request).parts :=
  claim_C3 fsW "http://h" "p1" ["results"] none none respW _ (by decide)

/-- C3 counterexample: the outgoing parts are named `results` and
`meta`; no part is named `results-metadata`. -/
theorem claim_C3_counterexample :
    ((upload fsW "http://h" "p1" ["results"] none none respW).request.map
      (fun r => r.parts.map Part.name)) = some ["results", "meta"] ∧
    ¬("results-metadata" ∈ ["results", "meta"]) := by
  refine ⟨by decide, by decide⟩


/-- C4 (confirmed): on a 200 `application/json` response whose object
body has all recognised fields missing, upload returns the submitted
project id, run identifier 0, empty UI and latest URLs, status
"unknown"; the `error` field is passed through as-is, so a non-empty
`error` in a successfully parsed response does not raise. -/
theorem claim_C4 (fs : Entry) (b p : String) (rd : List String) (meta : Option JsonObj)
    (config : Option ConfigArg) (resp : Response) (req : Request) (kvs : JsonObj)
    (hsent : (upload fs b p rd meta config resp).request = some req)
    (_hst : resp.status = 200)
    (hct : resp.contentType = "application/json")
    (hbody : loads resp.body = some (.obj kvs))
    (h1 : objGet kvs "project" = none) (h2 : objGet kvs "run_id" = none)
    (h3 : objGet kvs "ui_url" = none) (h4 : objGet kvs "latest_url" = none)
    (h5 : objGet kvs "status" = none) :
    (upload fs b p rd meta config resp).result =
      .ok ⟨.str p, 0, .str "", .str "", .str "unknown",
        pyOptional (objGet kvs "error")⟩ := by
  rw [upload_result_of_sent fs b p rd meta config resp req hsent]
  rw [handleResponse_json p resp kvs (by rw [hct]; decide) hbody 0
    (by simp [objGetD, h2, pyInt])]
  simp [objGetD, h1, h3, h4, h5]

/-- C4 witness: body `{"error": "boom"}` parses to the defaults with
the error carried, and upload still returns a result. -/
theorem claim_C4_witness :
    (upload fsW "http://h" "p1" ["results"] none none
        ⟨200, "application/json", "\x7b\"error\": \"boom\"\x7d"⟩).result =
      .ok ⟨.str "p1", 0, .str "", .str "", .str "unknown", some (.str "boom")⟩ := by
  have h := claim_C4 fsW "http://h" "p1" ["results"] none none
    ⟨200, "application/json", "\x7b\"error\": \"boom\"\x7d"⟩
    ⟨uploadUrl "http://h" "p1", [resultsPart [("r.json", [1, 2])], metaPart .nil]⟩
    (.cons "error" (.str "boom") .nil)
    (by decide) rfl rfl (by decide) (by decide) (by decide) (by decide) (by decide)
    (by decide)
  simpa using h

/-- C5 (amended): the returned run identifier is exactly the integer
the server sent, defaulting to 0 only when the field is absent; the
code does not constrain its sign, so a negative server value is
returned as-is. -/
theorem claim_C5 (fs : Entry) (b p : String) (rd : List String) (meta : Option JsonObj)
    (config : Option ConfigArg) (resp : Response) (req : Request) (kvs : JsonObj)
    (hsent : (upload fs b p rd meta config resp).request = some req)
    (hct : resp.contentType = "application/json")
    (hbody : loads resp.body = some (.obj kvs)) :
    (objGet kvs "run_id" = none →
      ∃ r, (upload fs b p rd meta config resp).result = .ok r ∧ r.run_id = 0) ∧
    (∀ n : Int, objGet kvs "run_id" = some (.num n) →
      ∃ r, (upload fs b p rd meta config resp).result = .ok r ∧ r.run_id = n) := by
  rw [upload_result_of_sent fs b p rd meta config resp req hsent]
  constructor
  · intro h2
    rw [handleResponse_json p resp kvs (by rw [hct]; decide) hbody 0
      (by simp [objGetD, h2, pyInt])]
    exact ⟨_, rfl, rfl⟩
  · intro n h2
    rw [handleResponse_json p resp kvs (by rw [hct]; decide) hbody n
      (by simp [objGetD, h2, pyInt])]
    exact ⟨_, rfl, rfl⟩

/-- C5 witness: the server sends `run_id = -1` and upload returns it. -/
theorem claim_C5_witness :
    ∃ r, (upload fsW "http://h" "p1" ["results"] none none
        ⟨200, "application/json", "\x7b\"run_id\": -1\x7d"⟩).result = .ok r ∧
      r.run_id = -1 :=
  (claim_C5 fsW "http://h" "p1" ["results"] none none
    ⟨200, "application/json", "\x7b\"run_id\": -1\x7d"⟩
    ⟨uploadUrl "http://h" "p1", [resultsPart [("r.json", [1, 2])], metaPart .nil]⟩
    (.cons "run_id" (.num (-1)) .nil)
    (by decide) rfl (by decide)).2 (-1) (by decide)

/-- C5 counterexample: the claim says upload never returns a negative
run identifier, but on body `{"run_id": -1}` it returns -1. -/
theorem claim_C5_counterexample :
    (upload fsW "http://h" "p1" ["results"] none none
        ⟨200, "application/json", "\x7b\"run_id\": -1\x7d"⟩).result =
      .ok ⟨.str "p1", -1, .str "", .str "", .str "unknown", none⟩ ∧
    (-1 : Int) < 0 := by
  refine ⟨by decide, by decide⟩

/-- C6 (confirmed): archiving an existing well-formed directory
succeeds and produces one entry per regular file (directories are not
recorded), each named by the file's forward-slash relative path and
carrying its exact bytes: the walk lists a path exactly when the
file-by-file lookup finds that content there. -/
theorem claim_C6 (fs : Entry) (rd : List String) (l : Listing)
    (hdir : lookupPath fs rd = some (.dir l)) (hwf : wfL l = true) :
    zip_allure_results fs rd = .ok (zipEntries l) ∧
    (zipEntries l).length = countFilesL l ∧
    zipEntries l = (walkListing l).map (fun pc => (String.intercalate "/" pc.1, pc.2)) ∧
    (∀ p c, (p, c) ∈ walkListing l ↔ fileAtL l p = some c) := by
  refine ⟨by unfold zip_allure_results; rw [hdir], ?_, rfl, ?_⟩
  · simp [zipEntries, walkListing_length l]
  · intro p c
    exact ⟨walkL_sound l hwf p c, walkL_complete l p c⟩

/-- C6 witness: a two-file tree with one nested file archives to two
entries with slash-joined names. -/
theorem claim_C6_witness :
    zip_allure_results fsW6 ["res"] = .ok (zipEntries lW) ∧
    (zipEntries lW).length = countFilesL lW ∧
    zipEntries lW = (walkListing lW).map (fun pc => (String.intercalate "/" pc.1, pc.2)) ∧
    (∀ p c, (p, c) ∈ walkListing lW ↔ fileAtL lW p = some c) :=
  claim_C6 fsW6 ["res"] lW (by decide) (by decide)

/-- C7 (confirmed): whenever upload fails with the not-found error —
missing or non-directory results path, or missing or non-regular
config file — no request was sent. -/
theorem claim_C7 (fs : Entry) (b p : String) (rd : List String) (meta : Option JsonObj)
    (config : Option ConfigArg) (resp : Response)
    (h : (upload fs b p rd meta config resp).result = .error .notFound) :
    (upload fs b p rd meta config resp).request = none := by
  cases hreq : (upload fs b p rd meta config resp).request with
  | none => rfl
  | some req =>
    rw [upload_result_of_sent fs b p rd meta config resp req hreq] at h
    exact absurd h (handleResponse_ne_notFound p resp)

/-- C7 witness: a missing results directory fails before any request. -/
theorem claim_C7_witness :
    (upload fsW "http://h" "p1" ["nope"] none none respW).request = none :=
  claim_C7 fsW "http://h" "p1" ["nope"] none none respW (by decide)

/-- C8 (confirmed): with `config` absent or whitespace-only the request
has exactly the two parts (the `results` archive part with filename
`allure-results.zip` and type `application/zip`, and the metadata
part); non-empty inline text adds exactly one `text/javascript` part
with fixed filename `allure.config.mjs`, and an existing regular file
adds exactly one `text/javascript` part named by the file's base name. -/
theorem claim_C8 (fs : Entry) (b p : String) (rd : List String) (meta : Option JsonObj)
    (resp : Response) (entries : List (String × List Nat))
    (hz : zip_allure_results fs rd = .ok entries) :
    ((upload fs b p rd meta none resp).request =
      some ⟨uploadUrl b p, [resultsPart entries, metaPart (metaMap meta)]⟩) ∧
    (∀ s, pyStrip s = "" → (upload fs b p rd meta (some (.str s)) resp).request =
      some ⟨uploadUrl b p, [resultsPart entries, metaPart (metaMap meta)]⟩) ∧
    (∀ s, pyStrip s ≠ "" → (upload fs b p rd meta (some (.str s)) resp).request =
      some ⟨uploadUrl b p, [resultsPart entries, metaPart (metaMap meta),
        ⟨"config", some "allure.config.mjs", .text (pyStrip s), "text/javascript"⟩]⟩) ∧
    (∀ pth bs, lookupPath fs pth = some (.file bs) →
      (upload fs b p rd meta (some (.path pth)) resp).request =
        some ⟨uploadUrl b p, [resultsPart entries, metaPart (metaMap meta),
          ⟨"config", some (pth.getLastD ""), .bytes bs, "text/javascript"⟩]⟩) := by
  refine ⟨?_, fun s hs => ?_, fun s hs => ?_, fun pth bs hp => ?_⟩
  · rw [upload_config_none fs b p rd meta resp entries hz]
  · rw [upload_config_str_empty fs b p rd meta s resp entries hz hs]
  · rw [upload_config_str_text fs b p rd meta s resp entries hz hs]
  · rw [upload_config_path_file fs b p rd meta pth resp entries bs hz hp]

/-- C8 witness: a whitespace-only inline config yields the two-part
request. -/
theorem claim_C8_witness :
    (upload fsW "http://h" "p1" ["results"] none (some (.str "   ")) respW).request =
      some ⟨uploadUrl "http://h" "p1", [resultsPart [("r.json", [1, 2])], metaPart .nil]⟩ :=
  (claim_C8 fsW "http://h" "p1" ["results"] none respW [("r.json", [1, 2])]
    (by decide)).2.1 "   " (by decide)

/-- C9 (confirmed): decoding the serialized metadata document yields
the original map — `loads (dumps m) = m` for every metadata object the
client can serialize. -/
theorem claim_C9 (m : JsonObj) :
    loads (dumps (Json.obj m)) = some (Json.obj m) :=
  loads_dumps (Json.obj m)

/-- C10 (confirmed): a string-typed config is interpreted purely by its
runtime type: the upload outcome is identical on any two filesystems
that agree on the results directory (the filesystem is never consulted
for the string, even if it names an existing file), and non-empty
trimmed text is sent inline under the fixed filename
`allure.config.mjs`. -/
theorem claim_C10 (fs1 fs2 : Entry) (b p : String) (rd : List String)
    (meta : Option JsonObj) (s : String) (resp : Response)
    (hsame : lookupPath fs1 rd = lookupPath fs2 rd) :
    upload fs1 b p rd meta (some (.str s)) resp =
      upload fs2 b p rd meta (some (.str s)) resp ∧
    (∀ req entries, pyStrip s ≠ "" →
      zip_allure_results fs1 rd = .ok entries →
      (upload fs1 b p rd meta (some (.str s)) resp).request = some req →
      (⟨"config", some "allure.config.mjs", .text (pyStrip s), "text/javascript"⟩ : Part)
        ∈ req.parts) := by
  have hzip : zip_allure_results fs1 rd = zip_allure_results fs2 rd := by
    unfold zip_allure_results
    rw [hsame]
  constructor
  · cases hz : zip_allure_results fs1 rd with
    | error e =>
      rw [upload_zip_err fs1 b p rd meta (some (.str s)) resp (by rw [hz])]
      rw [upload_zip_err fs2 b p rd meta (some (.str s)) resp (by rw [← hzip, hz])]
    | ok entries =>
      by_cases hs : pyStrip s = ""
      · rw [upload_config_str_empty fs1 b p rd meta s resp entries hz hs]
        rw [upload_config_str_empty fs2 b p rd meta s resp entries (by rw [← hzip, hz]) hs]
      · rw [upload_config_str_text fs1 b p rd meta s resp entries hz hs]
        rw [upload_config_str_text fs2 b p rd meta s resp entries (by rw [← hzip, hz]) hs]
  · intro req entries hs hz hsent
    rw [upload_config_str_text fs1 b p rd meta s resp entries hz hs] at hsent
    injection hsent with h
    subst h
    simp

/-- C10 witness: adding an unrelated `allure.config.mjs` file to the
root changes nothing about an upload whose config is the string of
that name. -/
theorem claim_C10_witness :
    upload fsW "http://h" "p1" ["results"] none (some (.str "allure.config.mjs")) respW =
      upload fsW2 "http://h" "p1" ["results"] none (some (.str "allure.config.mjs")) respW :=
  (claim_C10 fsW fsW2 "http://h" "p1" ["results"] none "allure.config.mjs" respW
    (by decide)).1

end AllureUploader
